import Mathlib

/-!
Verification development for the calculus utility layer of
`src/utils/calculus_utils.py` (classes `DerivativeCalculator`,
`IntegralCalculator`, `LimitCalculator`, `NumericalMethods`, and the
module-level convenience function `integrate`).

Modelling conventions:
* Machine floats of the numerical layer are modelled as exact rationals `ℚ`.
* The third-party symbolic engine (sympy) is external to the repository.
  Its purely symbolic primitives (parsing, substitution, limits, value
  division) are modelled by an engine record `SymEngine`; control-flow
  theorems quantify over every engine.  Differentiation, evaluation and
  antidifferentiation are modelled concretely on a rational-function
  expression tree `Expr` (the fragment the course material uses), with
  `Option` tracking the points where the engine produces no value.
* Python exceptions are modelled with `Except`: a raised exception is an
  `Except.error` value, `try/except` is a `match` on the body's result.
-/

namespace CalcUtils

/-- Symbolic expression tree over the single course variable `x`:
the fragment of sympy expressions exercised by the utility layer
(rational functions with natural-number powers). -/
inductive Expr where
  | const (q : ℚ)
  | var
  | add (e₁ e₂ : Expr)
  | mul (e₁ e₂ : Expr)
  | neg (e : Expr)
  | div (e₁ e₂ : Expr)
  | pow (e : Expr) (k : ℕ)
deriving DecidableEq, Repr

/-- Substitute the variable by a rational point and evaluate
(`expr.subs(var, point)` on the modelled fragment).  `none` models an
undefined value (division by zero, sympy's `zoo`). -/
def eval : Expr → ℚ → Option ℚ
  | .const q, _ => some q
  | .var, p => some p
  | .add e₁ e₂, p =>
      match eval e₁ p, eval e₂ p with
      | some v₁, some v₂ => some (v₁ + v₂)
      | _, _ => none
  | .mul e₁ e₂, p =>
      match eval e₁ p, eval e₂ p with
      | some v₁, some v₂ => some (v₁ * v₂)
      | _, _ => none
  | .neg e, p => (eval e p).map (fun v => -v)
  | .div e₁ e₂, p =>
      match eval e₁ p, eval e₂ p with
      | some v₁, some v₂ => if v₂ = 0 then none else some (v₁ / v₂)
      | _, _ => none
  | .pow e k, p => (eval e p).map (fun v => v ^ k)

/-- Symbolic derivative (`sp.diff(expr, var)`) on the modelled fragment:
sum, product, quotient and power rules. -/
def diff : Expr → Expr
  | .const _ => .const 0
  | .var => .const 1
  | .add e₁ e₂ => .add (diff e₁) (diff e₂)
  | .mul e₁ e₂ => .add (.mul (diff e₁) e₂) (.mul e₁ (diff e₂))
  | .neg e => .neg (diff e)
  | .div e₁ e₂ =>
      .div (.add (.mul (diff e₁) e₂) (.neg (.mul e₁ (diff e₂)))) (.pow e₂ 2)
  | .pow _ 0 => .const 0
  | .pow e (k + 1) => .mul (.mul (.const (k + 1)) (.pow e k)) (diff e)

/-- Symbolic antiderivative (`sp.integrate(expr, var)`) on the modelled
fragment.  `none` models the engine returning an unevaluated `Integral`
(no closed form found). -/
def antideriv : Expr → Option Expr
  | .const q => some (.mul (.const q) .var)
  | .var => some (.mul (.const (1 / 2)) (.pow .var 2))
  | .add e₁ e₂ =>
      match antideriv e₁, antideriv e₂ with
      | some F₁, some F₂ => some (.add F₁ F₂)
      | _, _ => none
  | .neg e => (antideriv e).map .neg
  | .mul (.const q) e => (antideriv e).map (.mul (.const q))
  | .pow .var k => some (.mul (.const (1 / (k + 1))) (.pow .var (k + 1)))
  | _ => none

/-- `IntegralCalculator.indefinite_integral(expr, var)`:
`sp.integrate(expr, var)` — the antiderivative without constant. -/
def indefinite_integral (expr : Expr) : Option Expr :=
  antideriv expr

/-- `IntegralCalculator.definite_integral(expr, var, lower, upper)`:
`sp.integrate(expr, (var, lower, upper))`, modelled as
`F(upper) - F(lower)` for an antiderivative `F`; `none` models an
unevaluated or undefined result. -/
def definite_integral (expr : Expr) (lower upper : ℚ) : Option ℚ :=
  match antideriv expr with
  | none => none
  | some F =>
      match eval F upper, eval F lower with
      | some vU, some vL => some (vU - vL)
      | _, _ => none

/-- Result of the module-level `integrate` convenience function: either a
definite-integral value or an indefinite-integral expression. -/
inductive IntegrateResult where
  | definite (v : Option ℚ)
  | indefinite (e : Option Expr)
deriving DecidableEq

/-- Module-level `integrate(expr, var=x, lower=None, upper=None)`:
`if lower is not None and upper is not None:` take the definite integral,
`else:` the indefinite integral. -/
def integrate (expr : Expr) (lower upper : Option ℚ) : IntegrateResult :=
  match lower, upper with
  | some lo, some hi => .definite (definite_integral expr lo hi)
  | _, _ => .indefinite (indefinite_integral expr)

/-- `DerivativeCalculator.tangent_line(func, point, var)`:
`slope = sp.diff(func, var).subs(var, point)`,
`y_val = func.subs(var, point)`,
`tangent = slope * (var - point) + y_val`; returns
`(tangent, slope, y_val)`.  `none` models a substitution that yields no
finite value. -/
def tangent_line (func : Expr) (point : ℚ) : Option (Expr × ℚ × ℚ) :=
  match eval (diff func) point, eval func point with
  | some slope, some y_val =>
      some (.add (.mul (.const slope) (.add .var (.neg (.const point))))
              (.const y_val),
            slope, y_val)
  | _, _ => none

/-- Special sympy values that the limit layer inspects: `nan`, `zoo`
(complex infinity), `oo`, `-oo` (written `noo`), or a finite rational. -/
inductive SymVal where
  | nan
  | zoo
  | oo
  | noo
  | fin (q : ℚ)
deriving DecidableEq, Repr

/-- Rendering of a `SymVal` for the reason strings built by
`check_continuity`. -/
def symValStr : SymVal → String
  | .nan => "nan"
  | .zoo => "zoo"
  | .oo => "oo"
  | .noo => "-oo"
  | .fin q => toString q

/-- `sp.simplify(a - b) == 0` on the value fragment reachable in
`check_continuity` (after its guards, `b` is finite and `a` is not
`nan`/`zoo`): true exactly for equal finite values; a difference
involving an infinity never simplifies to `0`. -/
def simplifySubIsZero : SymVal → SymVal → Bool
  | .fin q₁, .fin q₂ => q₁ = q₂
  | _, _ => false

/-- The `func` argument of the Python services: either raw text (to be
parsed by `sp.sympify`) or an already-parsed symbolic expression —
the `isinstance(func, str)` dispatch. -/
inductive FuncInput where
  | text (s : String)
  | expr (e : Expr)
deriving DecidableEq

/-- Model of the sympy primitives used by the limit service.  Fallible
operations return `Except String`: an `error` is a raised engine
exception.  Control-flow theorems hold for every engine. -/
structure SymEngine where
  sympify : String → Except String Expr
  subsVal : Expr → ℚ → Except String SymVal
  limitAt : Expr → ℚ → Except String SymVal
  divVal : SymVal → SymVal → SymVal

/-- Body of the `try:` block of `LimitCalculator.check_continuity`:
check `f(point)` exists, the limit exists, and they agree.  An
`error` is an exception raised inside the `try`. -/
def ccBody (eng : SymEngine) (f : Expr) (point : ℚ) :
    Except String (Bool × String) :=
  match eng.subsVal f point with
  | .error e => .error e
  | .ok f_a =>
    if f_a = SymVal.nan ∨ f_a = SymVal.zoo ∨ f_a = SymVal.oo ∨
        f_a = SymVal.noo then
      .ok (false, "f(" ++ toString point ++ ") does not exist")
    else
      match eng.limitAt f point with
      | .error e => .error e
      | .ok lim_val =>
        if lim_val = SymVal.nan ∨ lim_val = SymVal.zoo then
          .ok (false, "limit as x→" ++ toString point ++ " does not exist")
        else if simplifySubIsZero lim_val f_a then
          .ok (true, "Function is continuous")
        else
          .ok (false, "limit = " ++ symValStr lim_val ++ " ≠ f(" ++
            toString point ++ ") = " ++ symValStr f_a)

/-- The `except Exception as e:` clause of `check_continuity`: a normal
body result passes through, a raised exception becomes the
`(False, "Error checking continuity: ...")` verdict. -/
def catchToFailure (r : Except String (Bool × String)) : Bool × String :=
  match r with
  | .ok p => p
  | .error e => (false, "Error checking continuity: " ++ e)

/-- `LimitCalculator.check_continuity(func, var, point)`.  The
`isinstance(func, str)` parse via `sp.sympify` happens BEFORE the
`try:` block, so a parse failure is an uncaught `error`; every
exception raised by the body is caught by `catchToFailure`. -/
def check_continuity (eng : SymEngine) (func : FuncInput) (point : ℚ) :
    Except String (Bool × String) :=
  match (match func with
         | .text s => eng.sympify s
         | .expr e => .ok e) with
  | .error e => .error e
  | .ok f => .ok (catchToFailure (ccBody eng f point))

/-- One entry of the `steps` list built by
`LimitCalculator.lhopital_rule`: iteration index, current numerator and
denominator, and their limits at the point. -/
structure LhopStep where
  iteration : ℕ
  numerator : Expr
  denominator : Expr
  num_limit : SymVal
  den_limit : SymVal
deriving DecidableEq

/-- The `for i in range(max_iterations)` loop of `lhopital_rule`
(`fuel` is the number of remaining iterations, `i` the Python loop
index): evaluate both limits, record a step, return if the pair is not
one of the indeterminate forms `{(0,0), (oo,oo), (-oo,-oo)}`, otherwise
differentiate and continue; after the loop, a final direct limit of the
quotient. -/
def lhopitalGo (eng : SymEngine) (point : ℚ) :
    ℕ → ℕ → Expr → Expr → List LhopStep →
    Except String (SymVal × List LhopStep)
  | 0, _, num, den, steps =>
      match eng.limitAt (Expr.div num den) point with
      | .error e => .error e
      | .ok r => .ok (r, steps)
  | fuel + 1, i, num, den, steps =>
      match eng.limitAt num point with
      | .error e => .error e
      | .ok num_val =>
        match eng.limitAt den point with
        | .error e => .error e
        | .ok den_val =>
          let steps' := steps ++ [⟨i, num, den, num_val, den_val⟩]
          if (num_val = SymVal.fin 0 ∧ den_val = SymVal.fin 0) ∨
              (num_val = SymVal.oo ∧ den_val = SymVal.oo) ∨
              (num_val = SymVal.noo ∧ den_val = SymVal.noo) then
            lhopitalGo eng point fuel (i + 1) (diff num) (diff den) steps'
          else if den_val = SymVal.fin 0 then
            .ok (SymVal.oo, steps')
          else
            .ok (eng.divVal num_val den_val, steps')

/-- `LimitCalculator.lhopital_rule(numerator, denominator, var, point,
max_iterations)`: returns the limit value together with the list of
recorded steps. -/
def lhopital_rule (eng : SymEngine) (numerator denominator : Expr)
    (point : ℚ) (max_iterations : ℕ) :
    Except String (SymVal × List LhopStep) :=
  lhopitalGo eng point max_iterations 0 numerator denominator []

/-- One entry of the `iterations` list of
`NumericalMethods.newtons_method`: `{'iteration': i, 'x': xn,
'f(x)': fxn, "f'(x)": dfxn}`. -/
structure NewtonStep where
  iteration : ℕ
  x : ℚ
  fx : ℚ
  dfx : ℚ
deriving DecidableEq, Repr

/-- The pair returned by `newtons_method` — `(root, iterations)` with
`root = None` as the absence-of-root sentinel — plus the list of
non-fatal warnings the call raised via `warnings.warn`. -/
structure NewtonResult where
  root : Option ℚ
  iterations : List NewtonStep
  warnings : List String
deriving DecidableEq, Repr

/-- The cutoff `1e-15` of the near-zero-derivative guard, exact. -/
def derivEps : ℚ := mkRat 1 1000000000000000

/-- The `for i in range(max_iterations)` loop of `newtons_method`
(`fuel` is the number of remaining iterations, `i` the Python loop
index, `acc` the records appended so far).  The source lambdifies the
symbolic function and its derivative into numeric callables; `f` and
`df` model those callables. -/
def newtonsGo (f df : ℚ → ℚ) (tolerance : ℚ) :
    ℕ → ℕ → ℚ → List NewtonStep → NewtonResult
  | 0, _, xn, acc => ⟨some xn, acc, ["Maximum iterations reached"]⟩
  | fuel + 1, i, xn, acc =>
      let fxn := f xn
      let dfxn := df xn
      let acc' := acc ++ [⟨i, xn, fxn, dfxn⟩]
      if |fxn| < tolerance then
        ⟨some xn, acc', []⟩
      else if |dfxn| < derivEps then
        ⟨none, acc', ["Derivative near zero, Newton's method may fail"]⟩
      else
        newtonsGo f df tolerance fuel (i + 1) (xn - fxn / dfxn) acc'

/-- `NumericalMethods.newtons_method(func, initial_guess, var,
tolerance, max_iterations)` with `func` already lowered to the numeric
callables `f = lambdify(var, func)` and
`df = lambdify(var, sp.diff(func, var))`. -/
def newtons_method (f df : ℚ → ℚ) (initial_guess tolerance : ℚ)
    (max_iterations : ℕ) : NewtonResult :=
  newtonsGo f df tolerance max_iterations 0 initial_guess []

/-- The sequence of Newton iterates `x₀, x₁, …` with
`xₙ₊₁ = xₙ - f(xₙ)/f'(xₙ)` — the successive values the loop's `xn`
takes while no exit condition fires. -/
def newtonIter (f df : ℚ → ℚ) (x0 : ℚ) : ℕ → ℚ
  | 0 => x0
  | j + 1 =>
      let xj := newtonIter f df x0 j
      xj - f xj / df xj

/-- The list of iteration records the Newton loop appends while no exit
condition fires: entry `j` holds index `start + j`, the iterate
`xⱼ`, and `f(xⱼ)`, `f'(xⱼ)`. -/
def newtonRecords (f df : ℚ → ℚ) (x : ℚ) (start k : ℕ) :
    List NewtonStep :=
  (List.range k).map (fun j =>
    ⟨start + j, newtonIter f df x j, f (newtonIter f df x j),
      df (newtonIter f df x j)⟩)

/-- Python-level exceptions of the numerical layer: `ZeroDivisionError`
from an actual division by zero, or an explicitly raised
`ValueError(msg)`. -/
inductive PyError where
  | zeroDivision
  | valueError (msg : String)
deriving DecidableEq, Repr

/-- `np.linspace(a, b, num)` with endpoint included: `num` evenly
spaced samples `a + i·(b-a)/(num-1)`. -/
def linspace (a b : ℚ) (num : ℕ) : List ℚ :=
  match num with
  | 0 => []
  | 1 => [a]
  | m + 2 =>
      (List.range (m + 2)).map (fun i => a + (i : ℚ) * (b - a) / ((m : ℚ) + 1))

/-- Python slice `l[start:-1:2]`: the elements at indices
`start, start+2, …` strictly below `len(l) - 1`. -/
def sliceToLastStep2 (l : List ℚ) (start : ℕ) : List ℚ :=
  ((List.range l.length).filter
      (fun i => decide (start ≤ i) && decide (i < l.length - 1) &&
        decide ((i - start) % 2 = 0))).map
    (fun i => l.getD i 0)

/-- `NumericalMethods.riemann_sum(func, lower, upper, n, method, var)`
with `func` lowered to the numeric callable `f`.  `dx = (upper -
lower) / n` is computed before the method dispatch, so `n = 0` raises
`ZeroDivisionError` there; an unrecognized method falls off the
`if/elif` chain and silently returns `None` (`.ok none`). -/
def riemann_sum (f : ℚ → ℚ) (lower upper : ℚ) (n : ℕ) (method : String) :
    Except PyError (Option ℚ) :=
  if n = 0 then .error .zeroDivision
  else
    let dx := (upper - lower) / (n : ℚ)
    if method = "left" then
      .ok (some (((linspace lower (upper - dx) n).map
        (fun t => f t * dx)).sum))
    else if method = "right" then
      .ok (some (((linspace (lower + dx) upper n).map
        (fun t => f t * dx)).sum))
    else if method = "midpoint" then
      .ok (some (((linspace (lower + dx / 2) (upper - dx / 2) n).map
        (fun t => f t * dx)).sum))
    else if method = "trapezoid" then
      let y_vals := (linspace lower upper (n + 1)).map f
      .ok (some (dx * (y_vals.sum - (y_vals.headD 0 + y_vals.getLastD 0) / 2)))
    else
      .ok none

/-- `NumericalMethods.simpsons_rule(func, lower, upper, n, var)` with
`func` lowered to the numeric callable `f`: odd `n` raises
`ValueError("n must be even for Simpson's rule")` before anything else;
then `h = (upper - lower) / n` (a `ZeroDivisionError` for `n = 0`), and
the composite weights `(y₀ + yₙ + 4·Σ y[1:-1:2] + 2·Σ y[2:-1:2])·h/3`. -/
def simpsons_rule (f : ℚ → ℚ) (lower upper : ℚ) (n : ℕ) :
    Except PyError ℚ :=
  if n % 2 ≠ 0 then .error (.valueError "n must be even for Simpson's rule")
  else if n = 0 then .error .zeroDivision
  else
    let h := (upper - lower) / (n : ℚ)
    let y_vals := (linspace lower upper (n + 1)).map f
    .ok ((y_vals.headD 0 + y_vals.getLastD 0 +
      4 * (sliceToLastStep2 y_vals 1).sum +
      2 * (sliceToLastStep2 y_vals 2).sum) * (h / 3))

/-- A concrete `sp.sympify` model used to instantiate `SymEngine`: the
variable name, or an integer literal, parses; anything else raises a
parse error. -/
def parseExprText (s : String) : Except String Expr :=
  if s = "x" then .ok .var
  else if s = "0" then .ok (.const 0)
  else if s = "1" then .ok (.const 1)
  else if s = "2" then .ok (.const 2)
  else if s = "1/x" then .ok (.div (.const 1) .var)
  else .error ("SympifyError: could not parse " ++ s)

/-- Division of special values, modelling sympy division on the cases a
concrete engine instance meets (finite/finite plus the standard
infinity conventions). -/
def symDiv : SymVal → SymVal → SymVal
  | .nan, _ => .nan
  | _, .nan => .nan
  | .fin q₁, .fin q₂ =>
      if q₂ = 0 then (if q₁ = 0 then .nan else .zoo) else .fin (q₁ / q₂)
  | .oo, .fin q => if q = 0 then .zoo else if 0 < q then .oo else .noo
  | .noo, .fin q => if q = 0 then .zoo else if 0 < q then .noo else .oo
  | .zoo, .fin q => if q = 0 then .nan else .zoo
  | .fin _, .oo => .fin 0
  | .fin _, .noo => .fin 0
  | .fin _, .zoo => .fin 0
  | _, _ => .nan

/-- A concrete engine instance over the modelled fragment: substitution
and limits evaluate the expression at the point (`zoo` at a pole, and
limits reported as `nan` where the fragment evaluation is undefined). -/
def concreteEngine : SymEngine where
  sympify := parseExprText
  subsVal := fun e p =>
    match eval e p with
    | some v => .ok (.fin v)
    | none => .ok .zoo
  limitAt := fun e p =>
    match eval e p with
    | some v => .ok (.fin v)
    | none => .ok .nan
  divVal := symDiv

/-- Claim C10: `integrate(expr, var, lower, upper)` computes the definite
integral only when both bounds are supplied; if exactly one of `lower`
and `upper` is supplied, the supplied bound is silently ignored and the
indefinite integral of `expr` is returned (the result does not mention
the supplied bound). -/
theorem integrate_definite_iff_both_bounds (expr : Expr) (lo hi : ℚ) :
    integrate expr (some lo) (some hi) =
      .definite (definite_integral expr lo hi) ∧
    integrate expr (some lo) none = .indefinite (indefinite_integral expr) ∧
    integrate expr none (some hi) = .indefinite (indefinite_integral expr) ∧
    integrate expr none none = .indefinite (indefinite_integral expr) :=
  ⟨rfl, rfl, rfl, rfl⟩

/-- Claim C7: whenever the engine produces a value for the definite
integral with equal lower and upper bounds, that value is `0`
(`F(a) - F(a)` for the antiderivative `F`). -/
theorem definite_integral_equal_bounds (f : Expr) (point : ℚ)
    (h : (definite_integral f point point).isSome = true) :
    definite_integral f point point = some 0 := by
  unfold definite_integral at h ⊢
  cases hA : antideriv f with
  | none => rw [hA] at h; simp at h
  | some F =>
    rw [hA] at h
    cases hE : eval F point with
    | none => simp [hE] at h
    | some v => simp [hE]

/-- Witness for C7 at `f = x`, `a = 3`. -/
theorem definite_integral_equal_bounds_witness :
    (definite_integral Expr.var 3 3).isSome = true ∧
    definite_integral Expr.var 3 3 = some 0 :=
  ⟨by decide, definite_integral_equal_bounds Expr.var 3 (by decide)⟩

/-- Claim C9: `riemann_sum` with `n ≥ 1` and a method string outside
`{"left", "right", "midpoint", "trapezoid"}` falls off the `if/elif`
chain and silently returns `None`: no error, no sum. -/
theorem riemann_sum_unknown_method_none (f : ℚ → ℚ) (lo hi : ℚ) (n : ℕ)
    (method : String) (hn : 1 ≤ n)
    (hm : method ≠ "left" ∧ method ≠ "right" ∧ method ≠ "midpoint" ∧
      method ≠ "trapezoid") :
    riemann_sum f lo hi n method = .ok none := by
  unfold riemann_sum
  rw [if_neg (by omega), if_neg hm.1, if_neg hm.2.1, if_neg hm.2.2.1,
    if_neg hm.2.2.2]

/-- Witness for C9 at `n = 1`, `method = "simpson"`. -/
theorem riemann_sum_unknown_method_none_witness :
    riemann_sum (fun q => q) 0 1 1 "simpson" = .ok none :=
  riemann_sum_unknown_method_none (fun q => q) 0 1 1 "simpson" (by omega)
    ⟨by decide, by decide, by decide, by decide⟩

/-- Claim C2 (counterexample): at `n = 0` the call is not explicitly
rejected; the step width `Δx = (hi - lo)/n` IS computed, and the call
fails with the `ZeroDivisionError` raised by that division (not with an
explicitly raised invalid-argument error). -/
theorem riemann_sum_zero_counterexample :
    riemann_sum (fun q => q) 0 1 0 "midpoint" =
      .error PyError.zeroDivision := rfl

/-- Claim C2 (amended): a call with `n = 0` performs the division in
`Δx` and fails with a division-by-zero error — there is no explicit
validation of `n` — and `n ≥ 1` is indeed required for any result to be
returned. -/
theorem riemann_sum_zero_n_division (f : ℚ → ℚ) (lo hi : ℚ)
    (method : String) (n : ℕ) :
    (n = 0 → riemann_sum f lo hi n method = .error PyError.zeroDivision) ∧
    (∀ o, riemann_sum f lo hi n method = .ok o → 1 ≤ n) := by
  constructor
  · intro h
    subst h
    rfl
  · intro o ho
    by_contra hn
    have h0 : n = 0 := by omega
    subst h0
    simp [riemann_sum] at ho

/-- Witness for the amended C2 at `n = 0`, `method = "left"`. -/
theorem riemann_sum_zero_n_division_witness :
    riemann_sum (fun q => q) 2 5 0 "left" = .error PyError.zeroDivision :=
  (riemann_sum_zero_n_division (fun q => q) 2 5 "left" 0).1 rfl

/-- Claim C3 (counterexample): `n = 0` is even, yet
`simpsons_rule(func, lo, hi, 0)` does not return a value — it fails
with the division-by-zero error from `h = (hi - lo)/n`. -/
theorem simpsons_rule_even_zero_counterexample :
    simpsons_rule (fun q => q * q) 0 1 0 = .error PyError.zeroDivision ∧
    0 % 2 = 0 :=
  ⟨rfl, rfl⟩

/-- Claim C3 (amended): `simpsons_rule` raises the invalid-argument
error `ValueError("n must be even for Simpson's rule")` exactly for odd
`n`, before any evaluation of `func` (the result for odd `n` does not
depend on `f`, `lo`, `hi`); for even `n ≥ 2` the call returns a value;
for `n = 0` (even) it instead fails with a division-by-zero error
computing `h`. -/
theorem simpsons_rule_parity (f : ℚ → ℚ) (lo hi : ℚ) (n : ℕ) :
    (n % 2 = 1 → simpsons_rule f lo hi n =
      .error (PyError.valueError "n must be even for Simpson's rule")) ∧
    (n = 0 → simpsons_rule f lo hi n = .error PyError.zeroDivision) ∧
    (n % 2 = 0 → n ≠ 0 → ∃ v, simpsons_rule f lo hi n = .ok v) := by
  refine ⟨?_, ?_, ?_⟩
  · intro h
    unfold simpsons_rule
    rw [if_pos (by omega)]
  · intro h
    subst h
    rfl
  · intro h hne
    unfold simpsons_rule
    rw [if_neg (by omega), if_neg hne]
    exact ⟨_, rfl⟩

/-- Witness for the amended C3: `n = 11` is rejected, `n = 10` returns
a value. -/
theorem simpsons_rule_parity_witness :
    simpsons_rule (fun q => q * q) 0 1 11 =
      .error (PyError.valueError "n must be even for Simpson's rule") ∧
    (∃ v, simpsons_rule (fun q => q * q) 0 1 10 = .ok v) :=
  ⟨(simpsons_rule_parity (fun q => q * q) 0 1 11).1 rfl,
   (simpsons_rule_parity (fun q => q * q) 0 1 10).2.2 rfl (by omega)⟩

/-- Claim C8: whenever the substitutions in `tangent_line(f, a, var)`
succeed, the returned tangent expression
`slope·(var − a) + f(a)` evaluates at `var = a` exactly to the returned
`y_value = f(a)`. -/
theorem tangent_line_through_point (func : Expr) (point : ℚ) (tng : Expr)
    (s yv : ℚ) (h : tangent_line func point = some (tng, s, yv)) :
    eval tng point = some yv := by
  unfold tangent_line at h
  cases h₁ : eval (diff func) point with
  | none => rw [h₁] at h; simp at h
  | some slope =>
    rw [h₁] at h
    cases h₂ : eval func point with
    | none => simp [h₂] at h
    | some y =>
      simp only [h₂, Option.some.injEq, Prod.mk.injEq] at h
      obtain ⟨ht, hs, hy⟩ := h
      subst ht hs hy
      simp [eval]

/-- Witness for C8 at `f = x·x`, `a = 3`: slope `6`, value `9`, and the
tangent expression evaluates to `9` at the point. -/
theorem tangent_line_through_point_witness :
    tangent_line (.mul .var .var) 3 =
      some (.add (.mul (.const 6) (.add .var (.neg (.const 3))))
        (.const 9), 6, 9) ∧
    eval (.add (.mul (.const 6) (.add .var (.neg (.const 3))))
      (.const 9)) 3 = some 9 := by
  have htang : tangent_line (.mul .var .var) 3 =
      some (.add (.mul (.const 6) (.add .var (.neg (.const 3))))
        (.const 9), 6, 9) := by
    norm_num [tangent_line, diff, eval]
  exact ⟨htang, tangent_line_through_point (.mul .var .var) 3 _ 6 9 htang⟩

/-- Claim C1 (counterexample): a textual expression that fails to parse
makes `check_continuity` propagate the engine's parse error to the
caller — `sp.sympify` runs before the `try:` block, so the exception is
not caught and no `(False, reason)` pair is returned. -/
theorem check_continuity_parse_error_propagates :
    check_continuity concreteEngine (.text "((") 0 =
      .error "SympifyError: could not parse ((" := rfl

/-- Claim C1 (amended): for every engine and point, a call whose `func`
is an already-parsed expression — or text the engine parses
successfully — never propagates an exception: any engine error raised
during evaluation is caught and the call returns `(False, reason)`
normally.  Only a parse failure of textual input escapes. -/
theorem check_continuity_catches_evaluation_errors (eng : SymEngine)
    (point : ℚ) :
    (∀ e : Expr,
      (check_continuity eng (.expr e) point).isOk = true) ∧
    (∀ (s : String) (e : Expr), eng.sympify s = .ok e →
      (check_continuity eng (.text s) point).isOk = true) := by
  constructor
  · intro e
    rfl
  · intro s e hs
    show (match eng.sympify s with
          | .error msg => (.error msg : Except String (Bool × String))
          | .ok f => .ok (catchToFailure (ccBody eng f point))).isOk = true
    rw [hs]
    rfl

/-- Witness for the amended C1: the engine parses `"x"` and the call
returns normally. -/
theorem check_continuity_catches_evaluation_errors_witness :
    concreteEngine.sympify "x" = .ok Expr.var ∧
    (check_continuity concreteEngine (.text "x") 0).isOk = true :=
  ⟨rfl, (check_continuity_catches_evaluation_errors concreteEngine 0).2
    "x" Expr.var rfl⟩

/-- Claim C6: if the first evaluated pair of limits in `lhopital_rule`
is not one of the indeterminate forms `{(0,0), (∞,∞), (−∞,−∞)}`, the
call returns `num_limit / den_limit` (engine division) when
`den_limit ≠ 0` and `∞` when `den_limit = 0`, together with a step
record containing exactly the one initial evaluation. -/
theorem lhopital_rule_not_indeterminate (eng : SymEngine)
    (num den : Expr) (point : ℚ) (maxIt : ℕ) (nv dv : SymVal)
    (hmax : 1 ≤ maxIt)
    (hn : eng.limitAt num point = .ok nv)
    (hd : eng.limitAt den point = .ok dv)
    (hind : ¬((nv = SymVal.fin 0 ∧ dv = SymVal.fin 0) ∨
      (nv = SymVal.oo ∧ dv = SymVal.oo) ∨
      (nv = SymVal.noo ∧ dv = SymVal.noo))) :
    lhopital_rule eng num den point maxIt =
      .ok ((if dv = SymVal.fin 0 then SymVal.oo else eng.divVal nv dv),
        [⟨0, num, den, nv, dv⟩]) := by
  obtain ⟨m, rfl⟩ : ∃ m, maxIt = m + 1 := ⟨maxIt - 1, by omega⟩
  unfold lhopital_rule lhopitalGo
  rw [hn, hd]
  simp only [if_neg hind, List.nil_append]
  by_cases hz : dv = SymVal.fin 0
  · rw [if_pos hz, if_pos hz]
  · rw [if_neg hz, if_neg hz]

/-- Witness for C6 with the concrete engine: `num = 1`, `den = 2` at
`0` gives limit pair `(1, 2)`, not indeterminate, returning `1/2` and a
single step. -/
theorem lhopital_rule_not_indeterminate_witness :
    lhopital_rule concreteEngine (.const 1) (.const 2) 0 5 =
      .ok (SymVal.fin (1 / 2),
        [⟨0, .const 1, .const 2, .fin 1, .fin 2⟩]) :=
  (lhopital_rule_not_indeterminate concreteEngine (.const 1) (.const 2)
      0 5 (.fin 1) (.fin 2) (by omega) rfl rfl (by decide)).trans rfl

/-- Shifting the start point of the Newton iterate sequence by one
update steps the index. -/
theorem newtonIter_shift (f df : ℚ → ℚ) (x0 : ℚ) (j : ℕ) :
    newtonIter f df (x0 - f x0 / df x0) j = newtonIter f df x0 (j + 1) := by
  induction j with
  | zero => rfl
  | succ j ih => simp only [newtonIter, ih]

/-- Peeling the first record off a block of Newton iteration records. -/
theorem newtonRecords_cons (f df : ℚ → ℚ) (x : ℚ) (s k : ℕ) :
    newtonRecords f df x s (k + 1) =
      ⟨s, x, f x, df x⟩ :: newtonRecords f df (x - f x / df x) (s + 1) k := by
  unfold newtonRecords
  rw [List.range_succ_eq_map, List.map_cons, List.map_map]
  congr 1
  apply List.map_congr_left
  intro j hj
  have hsh : newtonIter f df x (j + 1) =
      newtonIter f df (x - f x / df x) j :=
    (newtonIter_shift f df x j).symm
  have hidx : s + (j + 1) = s + 1 + j := by omega
  show (⟨s + (j + 1), newtonIter f df x (j + 1),
    f (newtonIter f df x (j + 1)), df (newtonIter f df x (j + 1))⟩ :
      NewtonStep) = _
  rw [hidx, hsh]

/-- Appending the last record to a block of Newton iteration records. -/
theorem newtonRecords_snoc (f df : ℚ → ℚ) (x : ℚ) (s k : ℕ) :
    newtonRecords f df x s (k + 1) =
      newtonRecords f df x s k ++
        [⟨s + k, newtonIter f df x k, f (newtonIter f df x k),
          df (newtonIter f df x k)⟩] := by
  unfold newtonRecords
  rw [List.range_succ, List.map_append]
  rfl

/-- Loop invariant of the Newton iteration: while neither exit
condition fires for the first `k` iterates, the loop advances `k`
steps, consuming fuel, shifting the index and appending the records. -/
theorem newtonsGo_run (f df : ℚ → ℚ) (tol : ℚ) (k : ℕ) :
    ∀ (fuel i : ℕ) (x : ℚ) (acc : List NewtonStep), k ≤ fuel →
      (∀ j, j < k → tol ≤ |f (newtonIter f df x j)| ∧
        derivEps ≤ |df (newtonIter f df x j)|) →
      newtonsGo f df tol fuel i x acc =
        newtonsGo f df tol (fuel - k) (i + k) (newtonIter f df x k)
          (acc ++ newtonRecords f df x i k) := by
  induction k with
  | zero =>
    intro fuel i x acc _ _
    simp [newtonRecords, newtonIter]
  | succ k ih =>
    intro fuel i x acc hk hcond
    obtain ⟨m, rfl⟩ : ∃ m, fuel = m + 1 := ⟨fuel - 1, by omega⟩
    have h0 := hcond 0 (by omega)
    rw [show newtonIter f df x 0 = x from rfl] at h0
    have hstep : newtonsGo f df tol (m + 1) i x acc =
        newtonsGo f df tol m (i + 1) (x - f x / df x)
          (acc ++ [⟨i, x, f x, df x⟩]) := by
      simp only [newtonsGo]
      rw [if_neg (not_lt.mpr h0.1), if_neg (not_lt.mpr h0.2)]
    have hrec := ih m (i + 1) (x - f x / df x)
      (acc ++ [(⟨i, x, f x, df x⟩ : NewtonStep)]) (by omega)
      (fun j hj => by
        rw [newtonIter_shift]
        exact hcond (j + 1) (by omega))
    rw [hstep, hrec, newtonRecords_cons,
      show m + 1 - (k + 1) = m - k from by omega,
      show i + (k + 1) = i + 1 + k from by omega,
      ← newtonIter_shift f df x k]
    simp

/-- Claim C4: if the Newton loop reaches iteration `i` (no earlier
iterate converged or was degenerate) and there `|f'(xᵢ)| < 1e-15` while
`|f(xᵢ)| ≥ tolerance`, the call stops at that iteration and returns the
absence-of-root sentinel `None` together with the records of iterations
`0..i` and the non-fatal near-zero-derivative warning. -/
theorem newtons_method_degenerate (f df : ℚ → ℚ) (x0 tol : ℚ)
    (maxIt i : ℕ) (hi : i < maxIt)
    (hprev : ∀ j, j < i → tol ≤ |f (newtonIter f df x0 j)| ∧
      derivEps ≤ |df (newtonIter f df x0 j)|)
    (hf : tol ≤ |f (newtonIter f df x0 i)|)
    (hdf : |df (newtonIter f df x0 i)| < derivEps) :
    newtons_method f df x0 tol maxIt =
      ⟨none, newtonRecords f df x0 0 (i + 1),
        ["Derivative near zero, Newton's method may fail"]⟩ := by
  unfold newtons_method
  rw [newtonsGo_run f df tol i maxIt 0 x0 [] (by omega) hprev]
  obtain ⟨m, hm⟩ : ∃ m, maxIt - i = m + 1 := ⟨maxIt - i - 1, by omega⟩
  rw [hm]
  simp only [newtonsGo]
  rw [if_neg (not_lt.mpr hf), if_pos hdf, newtonRecords_snoc]
  simp

/-- Witness for C4: `f(x) = x`, `f' ≡ 0`, start `5`, tolerance `1`,
three iterations allowed; degeneracy at iteration `0`. -/
theorem newtons_method_degenerate_witness :
    (0 < 3 ∧ (1 : ℚ) ≤ |(5 : ℚ)| ∧ |(0 : ℚ)| < derivEps) ∧
    newtons_method (fun q => q) (fun _ => 0) 5 1 3 =
      ⟨none, [⟨0, 5, 5, 0⟩],
        ["Derivative near zero, Newton's method may fail"]⟩ := by
  refine ⟨⟨by omega, by decide, by decide⟩, ?_⟩
  have h := newtons_method_degenerate (fun q => q) (fun _ => 0) 5 1 3 0
    (by omega) (fun j hj => absurd hj (by omega)) (by decide) (by decide)
  rw [h]
  simp [newtonRecords, newtonIter, List.range_succ]

/-- Claim C5 (counterexample): with `f(x) = x - 10`, `f' ≡ 1`, start
`0`, tolerance `1` and `max_iterations = 1`, no iteration converges and
none is degenerate, yet the returned root `10` is NOT the `x` value of
the final iteration record (`0`): the loop returns the once-more
updated iterate. -/
theorem newtons_method_exhaustion_counterexample :
    newtons_method (fun q => q - 10) (fun _ => 1) 0 1 1 =
      ⟨some 10, [⟨0, 0, -10, 1⟩], ["Maximum iterations reached"]⟩ ∧
    (newtons_method (fun q => q - 10) (fun _ => 1) 0 1 1).root ≠
      some (((newtons_method (fun q => q - 10) (fun _ => 1) 0 1
        1).iterations.getLastD ⟨0, 0, 0, 0⟩).x) ∧
    (1 : ℚ) ≤ |(-10 : ℚ)| ∧ derivEps ≤ |(1 : ℚ)| := by
  have h : newtons_method (fun q => q - 10) (fun _ => 1) 0 1 1 =
      ⟨some 10, [⟨0, 0, -10, 1⟩], ["Maximum iterations reached"]⟩ := by
    simp [newtons_method, newtonsGo, derivEps]
    norm_num
  refine ⟨h, ?_, by decide, by decide⟩
  rw [h]
  decide

/-- Claim C5 (amended): when no iteration within `max_iterations`
converges and none is derivative-degenerate, the call returns the
once-more-updated iterate `x_{max_iterations}` — one Newton update past
the `x` recorded in the final iteration record — together with the full
record of `max_iterations` entries and the non-fatal
maximum-iterations warning. -/
theorem newtons_method_exhausted (f df : ℚ → ℚ) (x0 tol : ℚ)
    (maxIt : ℕ)
    (hall : ∀ j, j < maxIt → tol ≤ |f (newtonIter f df x0 j)| ∧
      derivEps ≤ |df (newtonIter f df x0 j)|) :
    newtons_method f df x0 tol maxIt =
      ⟨some (newtonIter f df x0 maxIt), newtonRecords f df x0 0 maxIt,
        ["Maximum iterations reached"]⟩ := by
  unfold newtons_method
  rw [newtonsGo_run f df tol maxIt maxIt 0 x0 [] (le_refl maxIt) hall]
  rw [Nat.sub_self]
  simp [newtonsGo]

/-- Witness for the amended C5: `f(x) = x - 100`, `f' ≡ 1`, start `0`,
tolerance `1`, one iteration: full record `[⟨0, 0, -100, 1⟩]`, root
`100` (the updated iterate). -/
theorem newtons_method_exhausted_witness :
    newtons_method (fun q => q - 100) (fun _ => 1) 0 1 1 =
      ⟨some 100, [⟨0, 0, -100, 1⟩], ["Maximum iterations reached"]⟩ := by
  have h := newtons_method_exhausted (fun q => q - 100) (fun _ => 1) 0 1 1
    (fun j hj => by
      have hj0 : j = 0 := by omega
      subst hj0
      exact ⟨by norm_num [newtonIter], by norm_num [newtonIter, derivEps]⟩)
  rw [h]
  simp [newtonRecords, newtonIter, List.range_succ]

end CalcUtils
